import Mathlib

set_option maxHeartbeats 1000000
set_option synthInstance.maxSize 2000
set_option synthInstance.maxHeartbeats 1000000

/-!
Verification development for the GRIB definition utilities of
`src/site/griberies/__init__.py` (module `griberies` of the EPyGrAM
repository).  The Python module is shallowly embedded below: Python
dicts become insertion-ordered association lists, the two hand-written
regular expressions of `read_gribdef` become explicit deterministic
matchers (their backtracking behaviour is worked out case by case in
the comments), and Python exceptions become an `Except` monad.
-/

namespace Griberies

/-- Python exceptions that the embedded code can raise. -/
inductive PyExc where
  | keyError
  | valueError
  | syntaxError
deriving DecidableEq, Repr

/-! ### Python dictionaries

A Python `dict` is modelled as an insertion-ordered association list:
`d[k]` is `dget`, `d[k] = v` is `dinsert` (replace in place if the key
is present, append otherwise), `d.pop(k)` is `dpop`, `d.update(d2)` is
`dupdate` (a fold of `dinsert` over `d2` in iteration order). -/

abbrev Pydict (K V : Type) := List (K × V)

section PydictOps

variable {K V : Type} [DecidableEq K]

/-- `d[k]` as an `Option` (first entry with the key). -/
def dget : Pydict K V → K → Option V
  | [], _ => none
  | p :: rest, k => if p.1 = k then some p.2 else dget rest k

/-- `d[k] = v`: replace the entry in place if present, else append. -/
def dinsert : Pydict K V → K → V → Pydict K V
  | [], k, v => [(k, v)]
  | p :: rest, k, v => if p.1 = k then (k, v) :: rest else p :: dinsert rest k v

/-- `d.pop(k)` (the removal part; presence is checked by callers). -/
def dpop : Pydict K V → K → Pydict K V
  | [], _ => []
  | p :: rest, k => if p.1 = k then rest else p :: dpop rest k

/-- `k in d`. -/
def dcontains (d : Pydict K V) (k : K) : Bool := (dget d k).isSome

/-- `d.update(frag)`: fold of `dinsert` over `frag` in order. -/
def dupdate (d frag : Pydict K V) : Pydict K V :=
  frag.foldl (fun acc p => dinsert acc p.1 p.2) d

/-- The keys of a dict, in order. -/
def dkeys (d : Pydict K V) : List K := d.map Prod.fst

end PydictOps

/-! ### Character-level utilities

`read_gribdef` works on text; we embed the needed pieces of Python
string handling over `List Char`. -/

/-- The apostrophe character (single quote). -/
def squote : Char := Char.ofNat 39

/-- Opening brace character. -/
def lbrace : Char := Char.ofNat 123

/-- Python `str.strip()` whitespace (ASCII). -/
def pyIsSpace (c : Char) : Bool :=
  c == ' ' || c == '\t' || c == '\n' || c == '\r' ||
  c == Char.ofNat 11 || c == Char.ofNat 12

/-- Python regex `\w` (ASCII range, as used by the definition files). -/
def isWordChar (c : Char) : Bool := c.isAlphanum || c == '_'

/-- The character class `[\w\.\-\_ ]` of `re_name`. -/
def isNameChar (c : Char) : Bool :=
  isWordChar c || c == '.' || c == '-' || c == '_' || c == ' '

/-- Python `str.strip()`. -/
def strip (l : List Char) : List Char :=
  ((l.dropWhile pyIsSpace).reverse.dropWhile pyIsSpace).reverse

/-- Python `str.strip(c)` for one character `c`. -/
def stripChar (c : Char) (l : List Char) : List Char :=
  ((l.dropWhile (· == c)).reverse.dropWhile (· == c)).reverse

/-- Python `str.split(c)`: always returns at least one segment. -/
def splitOnChar (c : Char) : List Char → List (List Char)
  | [] => [[]]
  | x :: rest =>
    match splitOnChar c rest with
    | s :: ss => if x = c then [] :: s :: ss else (x :: s) :: ss
    | [] => [[x]]

/-- Helper for `replace`, structurally recursive on a fuel argument. -/
def replaceAux (pat rep : List Char) : Nat → List Char → List Char
  | _, [] => []
  | 0, l => l
  | fuel + 1, c :: rest =>
    if pat.isPrefixOf (c :: rest) then
      rep ++ replaceAux pat rep fuel ((c :: rest).drop pat.length)
    else
      c :: replaceAux pat rep fuel rest

/-- Python `str.replace(pat, rep)`: left-to-right, non-overlapping. -/
def pyreplace (pat rep l : List Char) : List Char :=
  replaceAux pat rep l.length l

/-- Python `pat in s` (substring test). -/
def containsSub (pat : List Char) : List Char → Bool
  | [] => pat.isEmpty
  | c :: rest => pat.isPrefixOf (c :: rest) || containsSub pat rest

/-! ### Numeric literal conversion

`int(s)` and `float(s)` on the strings that the regular expressions can
produce.  `float` is modelled over `ℚ` (the only values that actually
reach a successful `float` call in the source are decimal literals, on
which the rational model is exact). -/

/-- Digits of a numeral to a natural number. -/
def digitsToNat (l : List Char) : Nat :=
  l.foldl (fun n c => 10 * n + (c.toNat - 48)) 0

/-- Python `int(s)`: optional sign then at least one digit; anything
else (in particular the bare `"+"` that `re_int` can produce) raises
`ValueError`, modelled as `none`. -/
def pyint (l : List Char) : Option Int :=
  let (sign, rest) :=
    match l with
    | '-' :: t => (true, t)
    | '+' :: t => (false, t)
    | _ => (false, l)
  if rest ≠ [] ∧ rest.all Char.isDigit then
    some (if sign then -(digitsToNat rest : Int) else (digitsToNat rest : Int))
  else
    none

/-- Python `float(s)` on the surface forms the parser can produce:
optional sign, digits, optional `.digits`, optional exponent `e`
followed by an optional sign and at least one digit.  `"1.5e+"`,
`"+"`, `"-"` all raise `ValueError` (`none`). -/
def pyfloat (l : List Char) : Option Rat :=
  let (neg, r0) :=
    match l with
    | '-' :: t => (true, t)
    | '+' :: t => (false, t)
    | _ => (false, l)
  let intPart := r0.takeWhile Char.isDigit
  let r1 := r0.dropWhile Char.isDigit
  let (fracPart, r2) :=
    match r1 with
    | '.' :: t => (t.takeWhile Char.isDigit, t.dropWhile Char.isDigit)
    | _ => ([], r1)
  if intPart = [] ∧ fracPart = [] ∧ (r1 ≠ [] → r1.headD ' ' = '.') ∧ r2 = [] then
    none
  else if intPart = [] ∧ fracPart = [] then
    none
  else
    match r2 with
    | [] =>
      let m : Int := digitsToNat (intPart ++ fracPart)
      some ((if neg then -m else m : Int) * (10 : Rat) ^ (-(fracPart.length : Int)))
    | 'e' :: t =>
      let (eneg, t1) :=
        match t with
        | '-' :: u => (true, u)
        | '+' :: u => (false, u)
        | _ => (false, t)
      if t1 ≠ [] ∧ t1.all Char.isDigit then
        let m : Int := digitsToNat (intPart ++ fracPart)
        let e : Int := (if eneg then -(digitsToNat t1 : Int) else (digitsToNat t1 : Int))
          - (fracPart.length : Int)
        some ((if neg then -m else m : Int) * (10 : Rat) ^ e)
      else
        none
    | _ => none

/-! ### Values stored in definition tables

Attribute values are Python ints, floats, or strings (the `#comment`
text, and string values coming back from `str2dict`).  `pyEq` is
Python `==` on these values: numeric comparison is cross-type exact
equality, string/number comparison is `False`. -/

inductive GribVal where
  | int (n : Int)
  | real (q : Rat)
  | str (s : String)
deriving DecidableEq, Repr

/-- Python `==` between stored values. -/
def pyEq : GribVal → GribVal → Bool
  | .int a, .int b => a = b
  | .int a, .real q => (a : Rat) = q
  | .real q, .int a => q = (a : Rat)
  | .real p, .real q => p = q
  | .str s, .str t => s = t
  | .str _, .int _ => false
  | .str _, .real _ => false
  | .int _, .str _ => false
  | .real _, .str _ => false

/-- A field's record: keys are `some name` for normal attributes and
the reserved `some "#comment"`; `none` is Python's `None` key, which
the source can produce because in the `real` branch of `read_gribdef`
the `key` regex group is absent (see `matchKV`). -/
abbrev Record := Pydict (Option String) GribVal

/-- A concept table: field name to record. -/
abbrev Table := Pydict String Record

/-! ### The two regular expressions of `read_gribdef`

`re_name  = ("|')(?P<name>[\w\.\-\_ ]+)("|')\s*=`
`re_keyvalue = (?P<key>\w+)\s*=\s*(?P<int>\+|-?\d+)|(?P<real>\+|-?\d*\.\d*e\+|-?\d*)\s*;`

Both are used with `re.match` (anchored at position 0, a prefix match
suffices).  Note the top level alternation of `re_keyvalue`: because
`|` binds loosest, `(?P<key>\w+)\s*=\s*` belongs only to the `int`
branch and `\s*;` only to the `real` branch.  The matchers below are
deterministic unrollings; in each spot where the regex engine could
backtrack, the character classes involved are disjoint, so the greedy
first attempt is the only possible one (worked out per branch). -/

/-- `re_name.match(line)`: returns the `name` group.  The name class
contains no quote character, so the greedy `[\w\.\-\_ ]+` is forced to
stop at the first quote and no backtracking can occur. -/
def matchName (line : List Char) : Option String :=
  match line with
  | q :: rest =>
    if q = '"' ∨ q = squote then
      let name := rest.takeWhile isNameChar
      let r1 := rest.dropWhile isNameChar
      if name ≠ [] then
        match r1 with
        | q2 :: r2 =>
          if q2 = '"' ∨ q2 = squote then
            match r2.dropWhile pyIsSpace with
            | '=' :: _ => some (String.mk name)
            | _ => none
          else none
        | [] => none
      else none
    else none
  | [] => none

/-- Result of `re_keyvalue.match`: branch `A` is
`(?P<key>\w+)\s*=\s*(?P<int>\+|-?\d+)` (groups `key` and `int`),
branch `B` is `(?P<real>\+|-?\d*\.\d*e\+|-?\d*)\s*;` (group `real`
only; the `key` group is `None`). -/
inductive KVM where
  | A (key intStr : List Char)
  | B (realStr : List Char)
deriving DecidableEq, Repr

/-- Does `\s*;` match at `l` (a required semicolon after spaces)? -/
def semiAfterSpaces (l : List Char) : Bool :=
  match l.dropWhile pyIsSpace with
  | ';' :: _ => true
  | _ => false

/-- Branch `A` of `re_keyvalue`: `\w+`, `=`, and the `int` group
`\+|-?\d+` (the lone-`+` alternative is tried first, exactly as the
regex engine does, so `+5` yields `int = "+"` never reached past the
`+`).  All greedy repetitions here are over classes disjoint from
what follows, hence deterministic. -/
def branchA (line : List Char) : Option KVM :=
  let key := line.takeWhile isWordChar
  let r1 := line.dropWhile isWordChar
  if key = [] then none
  else
    match r1.dropWhile pyIsSpace with
    | '=' :: r2 =>
      let r3 := r2.dropWhile pyIsSpace
      match r3 with
      | '+' :: _ => some (.A key ['+'])
      | _ =>
        let (sign, r4) :=
          match r3 with
          | '-' :: t => (['-'], t)
          | _ => ([], r3)
        let ds := r4.takeWhile Char.isDigit
        if ds = [] then none else some (.A key (sign ++ ds))
    | _ => none

/-- Alternative `-?\d*\.\d*e\+` of the `real` group followed by
`\s*;`.  (If the leading `-` is taken and the rest fails, retrying
without it also fails since `\d*` cannot start at `-`; so the single
greedy pass is faithful.) -/
def altB2 (line : List Char) : Option KVM :=
  let (sign, r0) :=
    match line with
    | '-' :: t => (['-'], t)
    | _ => ([], line)
  let d1 := r0.takeWhile Char.isDigit
  let r1 := r0.dropWhile Char.isDigit
  match r1 with
  | '.' :: r2 =>
    let d2 := r2.takeWhile Char.isDigit
    let r3 := r2.dropWhile Char.isDigit
    match r3 with
    | 'e' :: '+' :: r4 =>
      if semiAfterSpaces r4 then
        some (.B (sign ++ d1 ++ '.' :: d2 ++ ['e', '+']))
      else none
    | _ => none
  | _ => none

/-- Alternative `-?\d*` of the `real` group followed by `\s*;`;
the group may match the empty string. -/
def altB3 (line : List Char) : Option KVM :=
  let (sign, r0) :=
    match line with
    | '-' :: t => (['-'], t)
    | _ => ([], line)
  let ds := r0.takeWhile Char.isDigit
  let r1 := r0.dropWhile Char.isDigit
  if semiAfterSpaces r1 then some (.B (sign ++ ds)) else none

/-- Branch `B` of `re_keyvalue`: the three `real` alternatives in
regex order, each followed by the mandatory `\s*;`. -/
def branchB (line : List Char) : Option KVM :=
  match line with
  | '+' :: r =>
    if semiAfterSpaces r then some (.B ['+'])
    else match altB2 line with
      | some k => some k
      | none => altB3 line
  | _ =>
    match altB2 line with
    | some k => some k
    | none => altB3 line

/-- `re_keyvalue.match(line)`: branch `A` first, then branch `B`. -/
def matchKV (line : List Char) : Option KVM :=
  match branchA line with
  | some k => some k
  | none => branchB line

/-! ### `read_gribdef` -/

/-- The normalization pass of `read_gribdef`: split the text into
stripped lines, then re-split each line at `;` and at `{ ` (via
`line.replace(";", ";\n").replace("{ ", "{\n")` followed by a split on
newlines with stripping). -/
def normalize (cs : List Char) : List (List Char) :=
  let linesUnfold := (splitOnChar '\n' cs).map strip
  linesUnfold.foldl
    (fun acc l =>
      acc ++ ((splitOnChar '\n'
        (pyreplace [lbrace, ' '] [lbrace, '\n']
          (pyreplace [';'] [';', '\n'] l))).map strip))
    []

/-- First pass of `read_gribdef`: collect `(field, index)` pairs for
every line matching `re_name`, in order. -/
def collectIdxs (lines : List (List Char)) : List (String × Nat) :=
  lines.enum.filterMap fun p =>
    (matchName p.2).map fun nm => (nm, p.1)

/-- The `dico` initialisation of the first pass: `dico[field] = {}`
for each detected header, in order.  (Re-assigning `{}` to an already
present name is what the Python loop does for duplicates; with
`dinsert` this is the same fold.) -/
def buildDico (idxs : List (String × Nat)) : Table :=
  idxs.foldl (fun t p => dinsert t p.1 ([] : Record)) []

/-- `i`-th line, `[]` when out of range (never reached in the source's
index arithmetic). -/
def lineAt (lines : List (List Char)) (i : Nat) : List Char :=
  lines.getD i []

/-- One `re_keyvalue` line applied to a record, source lines 139-144:
a truthy `int` group stores `int(...)` under the `key` group, an empty
`int` group with a truthy `real` group stores `float(...)` under the
(absent, i.e. `None`) `key` group; conversion failures raise
`ValueError`. -/
def applyKV (rec : Record) (line : List Char) : Except PyExc Record :=
  match matchKV line with
  | none => .ok rec
  | some (.A key intStr) =>
    match pyint intStr with
    | some n => .ok (dinsert rec (some (String.mk key)) (.int n))
    | none => .error .valueError
  | some (.B realStr) =>
    if realStr = [] then .ok rec
    else
      match pyfloat realStr with
      | some q => .ok (dinsert rec none (.real q))
      | none => .error .valueError

/-- Fold of `applyKV` over a list of lines, in order. -/
def kvFold : List (List Char) → Record → Except PyExc Record
  | [], rec => .ok rec
  | l :: rest, rec =>
    match applyKV rec l with
    | .ok rec2 => kvFold rest rec2
    | .error e => .error e

/-- Processing of one field span (source lines 136-144), acting on the
field's current record: the preceding-comment capture, then the
key/value lines of `lines[istart:iend]`. -/
def spanApply (lines : List (List Char)) (istart iend : Nat) (rec : Record) :
    Except PyExc Record :=
  let rec1 :=
    if istart > 0 ∧ (lineAt lines (istart - 1)).headD ' ' = '#' then
      dinsert rec (some "#comment")
        (.str (String.mk (stripChar '"' (strip ((lineAt lines (istart - 1)).drop 1)))))
    else rec
  kvFold ((lines.drop istart).take (iend - istart)) rec1

/-- The end index of the current span: the start of the next detected
header, or the number of lines for the last field. -/
def nexti (rest : List (String × Nat)) (len : Nat) : Nat :=
  match rest with
  | [] => len
  | p :: _ => p.2

/-- The per-field loop of `read_gribdef` (source lines 131-144). -/
def processSpans (lines : List (List Char)) :
    Table → List (String × Nat) → Except PyExc Table
  | dico, [] => .ok dico
  | dico, (f, istart) :: rest =>
    match spanApply lines istart (nexti rest lines.length) ((dget dico f).getD []) with
    | .ok rec => processSpans lines (dinsert dico f rec) rest
    | .error e => .error e

/-- `read_gribdef(filename)` on the file's text. -/
def read_gribdef (text : String) : Except PyExc Table :=
  let lines := normalize text.data
  let idxs := collectIdxs lines
  processSpans lines (buildDico idxs) idxs

/-! ### `parse_GRIBstr_todict` -/

/-- Modelled from the spec: `bronx.syntax.parsing.str2dict` (used with
`try_convert=int`) is an external collaborator whose source is not part
of this repository.  Per the spec it consumes a generic
`key=value,key=value,...` string: each comma-separated item must
contain an `=` (otherwise the parse raises a syntax failure), keys and
values are the trimmed parts around the first `=`, and each value gets
an automatic attempt at integer coercion, staying a string when that
fails. -/
def str2dict (s : String) : Except PyExc (Pydict String GribVal) :=
  if (splitOnChar ',' s.data).all (fun item => item.contains '=') then
    .ok ((splitOnChar ',' s.data).foldl
      (fun acc item =>
        let k := strip (item.takeWhile (· ≠ '='))
        let v := strip ((item.dropWhile (· ≠ '=')).drop 1)
        dinsert acc (String.mk k)
          (match pyint v with
           | some n => .int n
           | none => .str (String.mk v)))
      [])
  else
    .error .syntaxError

/-- `parse_GRIBstr_todict(strfid)`: `str2dict(strfid, try_convert=int)`. -/
def parse_GRIBstr_todict (strfid : String) : Except PyExc (Pydict String GribVal) :=
  str2dict strfid

/-! ### The `GribDef` store -/

/-- The in-memory state of a `GribDef`: the nested tables
(edition tag to concept name to `Table`), and the `initialized` flag
used by the `init_before` decorator. -/
structure GribDef where
  tables : Pydict String (Pydict String Table)
  initialized : Bool
deriving DecidableEq, Repr

/-- `{c: {} for c in concepts}`. -/
def initConcepts (concepts : List String) : Pydict String Table :=
  concepts.foldl (fun t c => dinsert t c ([] : Table)) []

/-- The shape of a bulk load of definition files: a transformation of
the nested tables. -/
abbrev BulkLoad := Pydict String (Pydict String Table) → Pydict String (Pydict String Table)

/-- Modelled from the spec: the `_actual_init` of the concrete stores
is not under `src/` (the base class there leaves it as `pass`).  Per
the spec it is a one-time bulk load of default definition files that
records its completion in the `initialized` flag; the bulk load itself
is abstracted as a function `bulk` on the tables. -/
def actualInit (bulk : Pydict String (Pydict String Table) → Pydict String (Pydict String Table))
    (s : GribDef) : GribDef :=
  { tables := bulk s.tables, initialized := true }

/-- `GribDef.__init__(actual_init, concepts)`: build the two edition
tables and either run `_actual_init` or leave the store uninitialised. -/
def GribDef.construct
    (bulk : Pydict String (Pydict String Table) → Pydict String (Pydict String Table))
    (actual_init : Bool) (concepts : List String) : GribDef :=
  let base : GribDef :=
    { tables := [("grib1", initConcepts concepts), ("grib2", initConcepts concepts)],
      initialized := false }
  if actual_init then actualInit bulk base else base

/-- The `init_before` decorator: run `_actual_init` first when the
`initialized` flag is unset, then run the method on the (possibly
updated) state.  The pair returned is (state after the call, result);
the lookup method bodies themselves never write to the state. -/
def init_before
    (bulk : Pydict String (Pydict String Table) → Pydict String (Pydict String Table))
    {α : Type} (mtd : GribDef → α) (s : GribDef) : GribDef × α :=
  if s.initialized then (s, mtd s)
  else
    let s2 := actualInit bulk s
    (s2, mtd s2)

/-- The edition-inference loop at the top of `GribDef.read`: when no
edition is given, `grib_edition` is set to each of `"grib1"`,
`"grib2"` (in that order) whose name occurs in the file path, the last
assignment winning; a path containing neither leaves it `None`. -/
def inferEdition (filename : String) (grib_edition : Option String) : Option String :=
  match grib_edition with
  | some e => some e
  | none =>
    let e1 := if containsSub ("grib1").data filename.data then some "grib1" else none
    if containsSub ("grib2").data filename.data then some "grib2" else e1

/-- `os.path.basename(filename).replace(".def", "")`. -/
def conceptOf (filename : String) : String :=
  String.mk (pyreplace (".def").data [] ((filename.data.reverse.takeWhile (· ≠ '/')).reverse))

/-- `GribDef.read(filename, grib_edition)` (the file's text is passed
explicitly; the filesystem is outside the embedding).  Indexing
`self.tables[grib_edition]` with a `None` or unknown edition raises
`KeyError`; an existing concept table is merged with `dict.update`,
a new one is installed as is. -/
def GribDef.read (s : GribDef) (filename : String) (contents : String)
    (grib_edition : Option String) : Except PyExc GribDef :=
  match inferEdition filename grib_edition with
  | none => .error .keyError
  | some ed =>
    match dget s.tables ed with
    | none => .error .keyError
    | some ctab =>
      match read_gribdef contents with
      | .error e => .error e
      | .ok frag =>
        let concept := conceptOf filename
        let newTab :=
          match dget ctab concept with
          | some tab => dupdate tab frag
          | none => frag
        .ok { s with tables := dinsert s.tables ed (dinsert ctab concept newTab) }

/-- Body of `GribDef._get_def` (source lines 209-213): a copy of the
record stored under `fid`, with a *guarded* pop of `#comment` when
comments are not requested; any of the three dict accesses can raise
`KeyError`. -/
def get_def_body (s : GribDef) (fid concept grib_edition : String)
    (include_comments : Bool) : Except PyExc Record :=
  match dget s.tables grib_edition with
  | none => .error .keyError
  | some ctab =>
    match dget ctab concept with
    | none => .error .keyError
    | some tab =>
      match dget tab fid with
      | none => .error .keyError
      | some rec =>
        .ok (if include_comments then rec
             else if dcontains rec (some "#comment") then dpop rec (some "#comment")
             else rec)

/-- The matching test of `_lookup_from_kv` (source lines 230-236):
`set(handgrip.keys()).issubset(gribfid.keys())` and then exact `==`
equality of every probed value. -/
def matchesHandgrip (handgrip : Pydict String GribVal) (rec : Record) : Bool :=
  if handgrip.all fun p => dcontains rec (some p.1) then
    handgrip.all fun p =>
      match dget rec (some p.1) with
      | some w => pyEq w p.2
      | none => false
  else false

/-- The `fields` accumulation loop of `_lookup_from_kv`
(source lines 228-237). -/
def buildFields (tab : Table) (handgrip : Pydict String GribVal) : Table :=
  tab.foldl (fun acc fr => if matchesHandgrip handgrip fr.2 then dinsert acc fr.1 fr.2 else acc) []

/-- The comment-stripping loop of `_lookup_from_kv` (source lines
238-240): an *unguarded* `fid.pop('#comment')` on every returned
record, so a matched record without a comment raises `KeyError`. -/
def stripComments : Table → Except PyExc Table
  | [] => .ok []
  | (f, rec) :: rest =>
    if dcontains rec (some "#comment") then
      match stripComments rest with
      | .ok r => .ok ((f, dpop rec (some "#comment")) :: r)
      | .error e => .error e
    else .error .keyError

/-- `_lookup_from_kv` on an already-fetched concept table. -/
def lookup_from_kv_tab (tab : Table) (handgrip : Pydict String GribVal)
    (include_comments : Bool) : Except PyExc Table :=
  if include_comments then .ok (buildFields tab handgrip)
  else stripComments (buildFields tab handgrip)

/-- The polymorphic `fid` argument: a Python string or an
already-built identifier-set dict. -/
inductive Fid where
  | str (s : String)
  | dict (d : Pydict String GribVal)
deriving DecidableEq, Repr

/-- Body of `GribDef._lookup_from_kv` (source lines 226-241): a string
handgrip is parsed first (`parse_GRIBstr_todict`, uncaught failures
propagate), then the fields of `self.tables[grib_edition][concept]`
matching the handgrip are collected and their comments stripped. -/
def lookup_from_kv_body (s : GribDef) (handgrip : Fid) (concept grib_edition : String)
    (include_comments : Bool) : Except PyExc Table :=
  match (match handgrip with
         | .str t => parse_GRIBstr_todict t
         | .dict d => .ok d) with
  | .error e => .error e
  | .ok h =>
    match dget s.tables grib_edition with
    | none => .error .keyError
    | some ctab =>
      match dget ctab concept with
      | none => .error .keyError
      | some tab => lookup_from_kv_tab tab h include_comments

/-- A `_lookup` result: one record (direct lookup) or a mapping of
field names to records (reverse lookup). -/
inductive LookupResult where
  | one (r : Record)
  | many (t : Table)
deriving DecidableEq, Repr

/-- Body of `GribDef._lookup` (source lines 189-198): a string fid is
first given to `parse_GRIBstr_todict`; only a `SyntaxError` makes the
code fall back to the direct `_get_def` lookup with the original
string, any successful parse (and any non-string fid) is dispatched to
`_lookup_from_kv`. -/
def lookup_body (s : GribDef) (fid : Fid) (concept grib_edition : String)
    (include_comments : Bool) : Except PyExc LookupResult :=
  match fid with
  | .str t =>
    match parse_GRIBstr_todict t with
    | .error .syntaxError =>
      match get_def_body s t concept grib_edition include_comments with
      | .ok r => .ok (.one r)
      | .error e => .error e
    | .error e => .error e
    | .ok d =>
      match lookup_from_kv_body s (.dict d) concept grib_edition include_comments with
      | .ok t2 => .ok (.many t2)
      | .error e => .error e
  | .dict d =>
    match lookup_from_kv_body s (.dict d) concept grib_edition include_comments with
    | .ok t2 => .ok (.many t2)
    | .error e => .error e

/-- The decorated `GribDef._lookup` (with `@init_before`). -/
def GribDef.lookupD
    (bulk : Pydict String (Pydict String Table) → Pydict String (Pydict String Table))
    (s : GribDef) (fid : Fid) (concept grib_edition : String)
    (include_comments : Bool) : GribDef × Except PyExc LookupResult :=
  init_before bulk (fun s2 => lookup_body s2 fid concept grib_edition include_comments) s

/-- The decorated `GribDef._get_def` (with `@init_before`). -/
def GribDef.getDefD
    (bulk : Pydict String (Pydict String Table) → Pydict String (Pydict String Table))
    (s : GribDef) (fid concept grib_edition : String)
    (include_comments : Bool) : GribDef × Except PyExc Record :=
  init_before bulk (fun s2 => get_def_body s2 fid concept grib_edition include_comments) s

/-- The decorated `GribDef._lookup_from_kv` (with `@init_before`). -/
def GribDef.lookupFromKvD
    (bulk : Pydict String (Pydict String Table) → Pydict String (Pydict String Table))
    (s : GribDef) (handgrip : Fid) (concept grib_edition : String)
    (include_comments : Bool) : GribDef × Except PyExc Table :=
  init_before bulk (fun s2 => lookup_from_kv_body s2 handgrip concept grib_edition include_comments) s

/-! ### Auxiliary definitions used to state and prove the theorems -/

/-- Left-biased choice on `Option` (`a` if present, else `b`). -/
def oalt {α : Type} (a b : Option α) : Option α :=
  match a with
  | some v => some v
  | none => b

/-- The "action" of one line under `applyKV`: `none` when the line
stores nothing, `some (key, value)` when it stores, an exception when
the numeric conversion fails.  The action does not depend on the
record the line is applied to. -/
def kvAction (line : List Char) : Except PyExc (Option (Option String × GribVal)) :=
  match matchKV line with
  | none => .ok none
  | some (.A key intStr) =>
    match pyint intStr with
    | some n => .ok (some (some (String.mk key), .int n))
    | none => .error .valueError
  | some (.B realStr) =>
    if realStr = [] then .ok none
    else
      match pyfloat realStr with
      | some q => .ok (some (none, .real q))
      | none => .error .valueError

/-- The spans of the per-field loop that belong to field `f`: each is
the `(istart, iend)` pair of one occurrence of `f` in the header index
list. -/
def spansOf (f : String) : List (String × Nat) → Nat → List (Nat × Nat)
  | [], _ => []
  | (g, i) :: rest, len =>
    if g = f then (i, nexti rest len) :: spansOf f rest len
    else spansOf f rest len

/-- Sequential processing of a list of spans on one record. -/
def foldSpans (lines : List (List Char)) : Record → List (Nat × Nat) → Except PyExc Record
  | r, [] => .ok r
  | r, (i, n) :: rest =>
    match spanApply lines i n r with
    | .ok r2 => foldSpans lines r2 rest
    | .error e => .error e

section PydictLemmas

variable {K V : Type} [DecidableEq K]

theorem oalt_none {α : Type} (b : Option α) : oalt none b = b := rfl

theorem oalt_some {α : Type} (v : α) (b : Option α) : oalt (some v) b = some v := rfl

theorem oalt_assoc {α : Type} (a b c : Option α) :
    oalt (oalt a b) c = oalt a (oalt b c) := by
  cases a <;> rfl

theorem dget_dinsert (d : Pydict K V) (k : K) (v : V) (k' : K) :
    dget (dinsert d k v) k' = if k' = k then some v else dget d k' := by
  induction d with
  | nil =>
    by_cases h : k' = k
    · subst h
      simp [dinsert, dget]
    · have h2 : ¬k = k' := fun hh => h hh.symm
      simp [dinsert, dget, h, h2]
  | cons p rest ih =>
    by_cases hp : p.1 = k
    · by_cases h : k' = k
      · subst h
        simp [dinsert, dget, hp]
      · have h2 : ¬k = k' := fun hh => h hh.symm
        have h3 : ¬p.1 = k' := by
          rw [hp]
          exact h2
        simp [dinsert, dget, hp, h, h2, h3]
    · by_cases hq : p.1 = k'
      · have h4 : ¬k' = k := fun hh => hp (by rw [hq, hh])
        simp [dinsert, dget, hp, hq, h4]
      · simp [dinsert, dget, hp, hq, ih]

theorem dget_eq_none_iff (d : Pydict K V) (k : K) :
    dget d k = none ↔ k ∉ d.map Prod.fst := by
  induction d with
  | nil => simp [dget]
  | cons p rest ih =>
    by_cases hp : p.1 = k
    · simp [dget, hp]
    · have h2 : ¬k = p.1 := fun hh => hp hh.symm
      simp [dget, hp, ih, h2]

theorem dget_isSome_iff (d : Pydict K V) (k : K) :
    (dget d k).isSome = true ↔ k ∈ d.map Prod.fst := by
  rw [← not_iff_not, ← dget_eq_none_iff]
  cases dget d k <;> simp

theorem dinsert_of_not_mem {d : Pydict K V} {k : K} (v : V)
    (h : k ∉ d.map Prod.fst) : dinsert d k v = d ++ [(k, v)] := by
  induction d with
  | nil => rfl
  | cons p rest ih =>
    simp only [List.map_cons, List.mem_cons] at h
    push_neg at h
    have hp : ¬p.1 = k := fun hh => h.1 hh.symm
    simp only [dinsert, if_neg hp, List.cons_append, List.cons.injEq, true_and]
    exact ih h.2

theorem dupdate_dget {frag : Pydict K V} (hnd : (frag.map Prod.fst).Nodup)
    (d : Pydict K V) (k : K) :
    dget (dupdate d frag) k = oalt (dget frag k) (dget d k) := by
  induction frag generalizing d with
  | nil => simp [dupdate, dget, oalt]
  | cons p rest ih =>
    simp only [List.map_cons, List.nodup_cons] at hnd
    have step : dupdate d (p :: rest) = dupdate (dinsert d p.1 p.2) rest := rfl
    rw [step, ih hnd.2, dget_dinsert]
    by_cases hk : k = p.1
    · have hnone : dget rest k = none := by
        rw [dget_eq_none_iff, hk]
        exact hnd.1
      have hfirst : dget (p :: rest) k = some p.2 := by
        simp [dget, hk.symm]
      rw [hnone, if_pos hk, hfirst]
      rfl
    · have hfirst : dget (p :: rest) k = dget rest k := by
        have h2 : ¬p.1 = k := fun hh => hk hh.symm
        simp [dget, h2]
      rw [hfirst, if_neg hk]

end PydictLemmas

section ParserLemmas

theorem dget_pair {K V : Type} [DecidableEq K] (k0 : K) (v0 : V) (k : K) :
    dget [(k0, v0)] k = if k = k0 then some v0 else none := by
  by_cases h : k = k0
  · simp [dget, h]
  · have h2 : ¬k0 = k := fun hh => h hh.symm
    simp [dget, h, h2]

theorem dget_dinsert_oalt {K V : Type} [DecidableEq K]
    (r : Pydict K V) (k0 : K) (v0 : V) (k : K) :
    dget (dinsert r k0 v0) k = oalt (dget [(k0, v0)] k) (dget r k) := by
  rw [dget_dinsert, dget_pair]
  by_cases h : k = k0 <;> simp [h, oalt]

/-- `applyKV` factored through the line's action. -/
theorem applyKV_action (rec : Record) (line : List Char) :
    applyKV rec line = (kvAction line).map
      (fun a => match a with | none => rec | some kv => dinsert rec kv.1 kv.2) := by
  unfold applyKV kvAction
  cases hm : matchKV line with
  | none => rfl
  | some kvm =>
    cases kvm with
    | A key intStr =>
      cases hp : pyint intStr <;> simp [hp, Except.map]
    | B realStr =>
      by_cases hr : realStr = []
      · simp [hr, Except.map]
      · cases hf : pyfloat realStr <;> simp [hr, hf, Except.map]

/-- Whether a `kvFold` run succeeds does not depend on the record it
starts from. -/
theorem kvFold_ok_indep : ∀ {seg : List (List Char)} {r r2 : Record},
    kvFold seg r = .ok r2 → ∀ r', ∃ r2', kvFold seg r' = .ok r2' := by
  intro seg
  induction seg with
  | nil =>
    intro r r2 _ r'
    exact ⟨r', rfl⟩
  | cons l rest ih =>
    intro r r2 h r'
    simp only [kvFold] at h ⊢
    cases ha : kvAction l with
    | error e =>
      rw [applyKV_action, ha] at h
      simp [Except.map] at h
    | ok a =>
      rw [applyKV_action, ha] at h
      simp only [Except.map] at h
      rw [applyKV_action, ha]
      simp only [Except.map]
      cases a with
      | none =>
        obtain ⟨r2', hr⟩ := ih h r'
        exact ⟨r2', hr⟩
      | some kv =>
        obtain ⟨r2', hr⟩ := ih h (dinsert r' kv.1 kv.2)
        exact ⟨r2', hr⟩

/-- A successful `kvFold` run from any record factors through the run
from the empty record: later lines override, the start record fills
the rest. -/
theorem kvFold_factor : ∀ {seg : List (List Char)} {r r2 : Record},
    kvFold seg r = .ok r2 →
    ∃ r0, kvFold seg [] = .ok r0 ∧ ∀ k, dget r2 k = oalt (dget r0 k) (dget r k) := by
  intro seg
  induction seg with
  | nil =>
    intro r r2 h
    refine ⟨[], rfl, ?_⟩
    cases h
    intro k
    simp [dget, oalt]
  | cons l rest ih =>
    intro r r2 h
    simp only [kvFold] at h ⊢
    cases ha : kvAction l with
    | error e =>
      rw [applyKV_action, ha] at h
      simp [Except.map] at h
    | ok a =>
      rw [applyKV_action, ha] at h
      simp only [Except.map] at h
      rw [applyKV_action, ha]
      simp only [Except.map]
      cases a with
      | none => exact ih h
      | some kv =>
        obtain ⟨q0, hq0, hfac1⟩ := ih h
        obtain ⟨r0, hr0⟩ := kvFold_ok_indep h (dinsert [] kv.1 kv.2)
        obtain ⟨q0', hq0', hfac2⟩ := ih hr0
        have hq : q0' = q0 := by
          rw [hq0] at hq0'
          exact (Except.ok.inj hq0').symm
        rw [hq] at hfac2
        refine ⟨r0, hr0, ?_⟩
        intro k
        rw [hfac1 k, dget_dinsert_oalt, ← oalt_assoc]
        have : dget r0 k = oalt (dget q0 k) (dget (dinsert [] kv.1 kv.2) k) := hfac2 k
        rw [show dinsert ([] : Record) kv.1 kv.2 = [(kv.1, kv.2)] from rfl] at this
        rw [← this]

/-- `kvFold_factor` for a run whose start record is an insertion into
`r`: it factors through the record holding just that insertion. -/
theorem kvFold_insert_factor {seg : List (List Char)} {r : Record}
    {k0 : Option String} {v0 : GribVal} {r2 : Record}
    (h : kvFold seg (dinsert r k0 v0) = .ok r2) :
    ∃ r0, kvFold seg (dinsert [] k0 v0) = .ok r0 ∧
      ∀ k, dget r2 k = oalt (dget r0 k) (dget r k) := by
  obtain ⟨q0, hq0, hfac1⟩ := kvFold_factor h
  obtain ⟨r0, hr0⟩ := kvFold_ok_indep h (dinsert [] k0 v0)
  obtain ⟨q0', hq0', hfac2⟩ := kvFold_factor hr0
  have hq : q0' = q0 := by
    rw [hq0] at hq0'
    exact (Except.ok.inj hq0').symm
  rw [hq] at hfac2
  refine ⟨r0, hr0, ?_⟩
  intro k
  rw [hfac1 k, dget_dinsert_oalt, ← oalt_assoc]
  have h3 : dget r0 k = oalt (dget q0 k) (dget (dinsert ([] : Record) k0 v0) k) := hfac2 k
  rw [show dinsert ([] : Record) k0 v0 = [(k0, v0)] from rfl] at h3
  rw [← h3]

/-- A successful span run factors through the same span started on the
empty record. -/
theorem spanApply_factor {lines : List (List Char)} {i n : Nat} {r r2 : Record}
    (h : spanApply lines i n r = .ok r2) :
    ∃ r0, spanApply lines i n [] = .ok r0 ∧
      ∀ k, dget r2 k = oalt (dget r0 k) (dget r k) := by
  unfold spanApply at h ⊢
  by_cases hc : i > 0 ∧ (lineAt lines (i - 1)).headD ' ' = '#'
  · rw [if_pos hc] at h
    rw [if_pos hc]
    exact kvFold_insert_factor h
  · rw [if_neg hc] at h
    rw [if_neg hc]
    exact kvFold_factor h

/-- What a successful `stripComments` run returns: every record with
its `#comment` popped. -/
theorem stripComments_ok_eq : ∀ {l r : Table}, stripComments l = .ok r →
    r = l.map fun fr => (fr.1, dpop fr.2 (some "#comment")) := by
  intro l
  induction l with
  | nil =>
    intro r h
    cases h
    rfl
  | cons fr rest ih =>
    intro r h
    simp only [stripComments] at h
    by_cases hc : dcontains fr.2 (some "#comment") = true
    · rw [if_pos hc] at h
      cases hrest : stripComments rest with
      | ok rr =>
        rw [hrest] at h
        cases h
        simp [ih hrest]
      | error e =>
        rw [hrest] at h
        cases h
    · rw [if_neg hc] at h
      cases h

/-- `stripComments` succeeds exactly when every listed record carries
a `#comment` attribute. -/
theorem stripComments_isOk_iff (l : Table) :
    (∃ r, stripComments l = .ok r) ↔
      ∀ fr ∈ l, dcontains fr.2 (some "#comment") = true := by
  induction l with
  | nil =>
    constructor
    · intro _ fr hfr
      cases hfr
    · intro _
      exact ⟨[], rfl⟩
  | cons fr rest ih =>
    simp only [stripComments, List.mem_cons]
    by_cases hc : dcontains fr.2 (some "#comment") = true
    · rw [if_pos hc]
      constructor
      · intro ⟨r, hr⟩ g hg
        rcases hg with hg | hg
        · rw [hg]
          exact hc
        · cases hrest : stripComments rest with
          | ok rr => exact (ih.1 ⟨rr, hrest⟩) g hg
          | error e =>
            rw [hrest] at hr
            cases hr
      · intro hall
        obtain ⟨rr, hrr⟩ := ih.2 fun g hg => hall g (Or.inr hg)
        exact ⟨_, by rw [hrr]⟩
    · rw [if_neg hc]
      constructor
      · intro ⟨r, hr⟩
        cases hr
      · intro hall
        exact absurd (hall fr (Or.inl rfl)) hc

/-- The `fields` loop of `_lookup_from_kv` is a filter of the concept
table when the table has no duplicate field names (Python dicts never
do). -/
theorem buildFields_eq_filter {tab : Table} (h : Pydict String GribVal)
    (hnd : (tab.map Prod.fst).Nodup) :
    buildFields tab h = tab.filter fun fr => matchesHandgrip h fr.2 := by
  have go : ∀ (t acc : Table), (t.map Prod.fst).Nodup →
      (∀ k, k ∈ acc.map Prod.fst → k ∉ t.map Prod.fst) →
      t.foldl (fun acc fr => if matchesHandgrip h fr.2 then dinsert acc fr.1 fr.2 else acc) acc
        = acc ++ t.filter fun fr => matchesHandgrip h fr.2 := by
    intro t
    induction t with
    | nil =>
      intro acc _ _
      simp
    | cons fr rest ih =>
      intro acc hnd2 hdisj
      simp only [List.map_cons, List.nodup_cons] at hnd2
      simp only [List.foldl_cons]
      by_cases hm : matchesHandgrip h fr.2 = true
      · rw [if_pos hm]
        have hnotin : fr.1 ∉ acc.map Prod.fst := by
          intro hin
          exact hdisj fr.1 hin (by simp)
        rw [dinsert_of_not_mem fr.2 hnotin]
        rw [ih (acc ++ [(fr.1, fr.2)]) hnd2.2 ?_]
        · simp [hm]
        · intro k hk
          simp only [List.map_append, List.mem_append] at hk
          rcases hk with hk | hk
          · intro hk2
            exact hdisj k hk (by simp [hk2])
          · simp at hk
            rw [hk]
            exact hnd2.1
      · rw [if_neg hm]
        rw [ih acc hnd2.2 ?_]
        · simp [hm]
        · intro k hk hk2
          exact hdisj k hk (by simp [hk2])
  have base := go tab [] hnd (by simp)
  simpa [buildFields] using base

/-- The matching test of `_lookup_from_kv`, characterised: every probe
key present with an exactly equal value. -/
theorem matchesHandgrip_iff (h : Pydict String GribVal) (rec : Record) :
    matchesHandgrip h rec = true ↔
      ∀ p ∈ h, ∃ w, dget rec (some p.1) = some w ∧ pyEq w p.2 = true := by
  simp only [matchesHandgrip]
  cases hc : h.all fun p => dcontains rec (some p.1) with
  | false =>
    simp only [Bool.false_eq_true, if_false]
    have hne : ¬(List.all h (fun p => dcontains rec (some p.1)) = true) := by
      simp [hc]
    rw [List.all_eq_true] at hne
    push_neg at hne
    constructor
    · intro hfalse
      cases hfalse
    · intro hex
      obtain ⟨p, hp, hnc⟩ := hne
      obtain ⟨w, hw, _⟩ := hex p hp
      exact absurd (by rw [dcontains, hw]; rfl) hnc
  | true =>
    simp only [if_true]
    rw [List.all_eq_true] at hc
    rw [List.all_eq_true]
    constructor
    · intro hall p hp
      have h1 := hall p hp
      have h2 := hc p hp
      cases hw : dget rec (some p.1) with
      | none =>
        rw [dcontains, hw] at h2
        cases h2
      | some w =>
        rw [hw] at h1
        exact ⟨w, rfl, h1⟩
    · intro hex p hp
      obtain ⟨w, hw, he⟩ := hex p hp
      rw [hw]
      exact he

/-- Fields other than the span's own are untouched by `processSpans`
steps, so the final record of a field is the fold of exactly its own
spans, started from its entry in the initial `dico`. -/
theorem processSpans_tracks (lines : List (List Char)) :
    ∀ (idxs : List (String × Nat)) (dico d : Table) (f : String),
    processSpans lines dico idxs = .ok d →
    ∃ r, foldSpans lines ((dget dico f).getD []) (spansOf f idxs lines.length) = .ok r ∧
      dget d f = if spansOf f idxs lines.length = [] then dget dico f else some r := by
  intro idxs
  induction idxs with
  | nil =>
    intro dico d f h
    have hd : d = dico := by
      simp only [processSpans] at h
      exact (Except.ok.inj h).symm
    subst hd
    exact ⟨(dget d f).getD [], rfl, by simp [spansOf, foldSpans]⟩
  | cons gi rest ih =>
    intro dico d f h
    obtain ⟨g, i⟩ := gi
    simp only [processSpans] at h
    cases hsp : spanApply lines i (nexti rest lines.length) ((dget dico g).getD []) with
    | error e =>
      rw [hsp] at h
      cases h
    | ok rec =>
      rw [hsp] at h
      obtain ⟨r, hfold, hdget⟩ := ih (dinsert dico g rec) d f h
      by_cases hg : g = f
      · subst hg
        have hstart : dget (dinsert dico g rec) g = some rec := by
          rw [dget_dinsert, if_pos rfl]
        rw [hstart] at hfold hdget
        have hspansOf : spansOf g ((g, i) :: rest) lines.length
            = (i, nexti rest lines.length) :: spansOf g rest lines.length := by
          simp [spansOf]
        refine ⟨r, ?_, ?_⟩
        · rw [hspansOf]
          simp only [foldSpans]
          rw [hsp]
          simpa using hfold
        · rw [hspansOf, if_neg (List.cons_ne_nil _ _)]
          by_cases hrest : spansOf g rest lines.length = []
          · rw [hrest] at hdget hfold
            simp only [foldSpans] at hfold
            cases hfold
            rw [hdget]
            simp
          · rw [if_neg hrest] at hdget
            exact hdget
      · have hother : dget (dinsert dico g rec) f = dget dico f := by
          rw [dget_dinsert, if_neg (fun hh => hg hh.symm)]
        rw [hother] at hfold hdget
        have hspansOf : spansOf f ((g, i) :: rest) lines.length
            = spansOf f rest lines.length := by
          simp [spansOf, hg]
        rw [hspansOf]
        exact ⟨r, hfold, hdget⟩

/-- Spans of a field absent from a prefix of the index list. -/
theorem spansOf_append_of_not_mem {f : String} {xs : List (String × Nat)}
    (hx : f ∉ xs.map Prod.fst) (ys : List (String × Nat)) (len : Nat) :
    spansOf f (xs ++ ys) len = spansOf f ys len := by
  induction xs with
  | nil => rfl
  | cons p rest ih =>
    simp only [List.map_cons, List.mem_cons] at hx
    push_neg at hx
    have hneg : ¬p.1 = f := fun hh => hx.1 hh.symm
    simp only [List.cons_append, spansOf]
    rw [if_neg hneg]
    exact ih hx.2

/-- The first pass (`dico[field] = {}` per header) gives `{}` exactly
for the detected field names. -/
theorem buildDico_dget (idxs : List (String × Nat)) (f : String) :
    dget (buildDico idxs) f =
      if f ∈ idxs.map Prod.fst then some ([] : Record) else none := by
  have go : ∀ (l : List (String × Nat)) (t0 : Table),
      dget (l.foldl (fun t p => dinsert t p.1 ([] : Record)) t0) f =
        if f ∈ l.map Prod.fst then some ([] : Record) else dget t0 f := by
    intro l
    induction l with
    | nil =>
      intro t0
      simp
    | cons p rest ih =>
      intro t0
      simp only [List.foldl_cons, List.map_cons, List.mem_cons]
      rw [ih (dinsert t0 p.1 [])]
      by_cases hr : f ∈ rest.map Prod.fst
      · simp [hr]
      · rw [if_neg hr, dget_dinsert]
        by_cases hp : f = p.1
        · simp [hp]
        · simp [hp, hr]
  have base := go idxs []
  rw [buildDico, base]
  by_cases hm : f ∈ idxs.map Prod.fst
  · simp [hm]
  · simp [hm, dget]

end ParserLemmas

/-! ### Claim theorems -/

/-- C2 (code bug): the spec states that parsing
`"foo" = \x7b key = 3 ; other = 1.5e+2 ; \x7d` yields
`other ↦ 150.0` (a real).  Because `|` binds loosest in `re_keyvalue`,
the `real` group is never attached to `key =`; the `int` alternative
`-?\d+` matches the digit prefix `1` of `1.5e+2`, so the code stores
`other ↦ 1` (an int).  This theorem evaluates the embedded parser at
exactly the spec's input. -/
theorem read_gribdef_real_literal_is_truncated_to_int :
    read_gribdef "\"foo\" = \x7b key = 3 ; other = 1.5e+2 ; \x7d" =
      .ok [("foo", [(some "key", GribVal.int 3), (some "other", GribVal.int 1)])] := by
  rfl

/-- C10: with no explicit edition, `GribDef.read` infers the edition
from the file path by substring test; `grib2` is checked last so it
wins whenever present (even with `grib1` also present), a `grib2`
path files the parsed fragment under the `grib2` table, and a path
containing neither substring leaves the edition `None`, making the
`self.tables[grib_edition]` access raise `KeyError`. -/
theorem read_edition_inference :
    (∀ f : String, containsSub ("grib2").data f.data = true →
      inferEdition f none = some "grib2")
    ∧ (∀ (s : GribDef) (f contents : String) (ctab : Pydict String Table) (frag : Table),
        containsSub ("grib2").data f.data = true →
        dget s.tables "grib2" = some ctab →
        read_gribdef contents = .ok frag →
        s.read f contents none = .ok (GribDef.mk
          (dinsert s.tables "grib2" (dinsert ctab (conceptOf f)
            (match dget ctab (conceptOf f) with
              | some tab => dupdate tab frag
              | none => frag))) s.initialized))
    ∧ (∀ f : String, containsSub ("grib1").data f.data = false →
        containsSub ("grib2").data f.data = false →
        ∀ (s : GribDef) (contents : String),
          s.read f contents none = .error .keyError) := by
  refine ⟨?_, ?_, ?_⟩
  · intro f h
    simp [inferEdition, h]
  · intro s f contents ctab frag h hctab hfrag
    have hinf : inferEdition f none = some "grib2" := by
      simp [inferEdition, h]
    simp only [GribDef.read, hinf, hctab, hfrag]
  · intro f h1 h2 s contents
    have hinf : inferEdition f none = none := by
      simp [inferEdition, h1, h2]
    simp only [GribDef.read, hinf]

/-- Witness for C10 at concrete inputs: a path containing both
`grib1` and `grib2` infers `grib2`, and a path with neither makes
`read` raise `KeyError`. -/
theorem read_edition_inference_witness :
    inferEdition "dir/grib1/grib2/c.def" none = some "grib2"
    ∧ (GribDef.mk [("grib1", [("c", [])]), ("grib2", [("c", [])])] true).read
        "plain/c.def" "" none = .error .keyError :=
  ⟨read_edition_inference.1 "dir/grib1/grib2/c.def" (by decide),
   read_edition_inference.2.2 "plain/c.def" (by decide) (by decide)
     (GribDef.mk [("grib1", [("c", [])]), ("grib2", [("c", [])])] true) ""⟩

/-- C5 counterexample: the claim says that a reverse lookup against a
never-registered (edition, concept) pair returns an empty mapping and
does not raise; but `self.tables[grib_edition][concept]` raises
`KeyError` when the concept was never registered.  Here `"c"` is
absent from the (empty) `grib2` concept map, and the reverse lookup
errors instead of returning `\x7b\x7d`. -/
theorem reverse_lookup_missing_concept_raises :
    dget (([] : Pydict String Table)) "c" = none
    ∧ lookup_from_kv_body (GribDef.mk [("grib1", []), ("grib2", [])] true)
        (.dict []) "c" "grib2" false = .error .keyError := by
  exact ⟨rfl, rfl⟩

/-- C5 as amended: a reverse lookup against a *registered but empty*
table returns the empty mapping without error; against a
never-registered concept both the reverse and the direct lookup raise
`KeyError`; and a direct lookup on a registered empty table raises
`KeyError` (NotFound) as the claim states. -/
theorem lookup_missing_vs_empty :
    (∀ (s : GribDef) (c e : String) (ctab : Pydict String Table)
        (h : Pydict String GribVal) (ic : Bool),
        dget s.tables e = some ctab → dget ctab c = some ([] : Table) →
        lookup_from_kv_body s (.dict h) c e ic = .ok [])
    ∧ (∀ (s : GribDef) (c e : String) (ctab : Pydict String Table)
        (h : Pydict String GribVal) (ic : Bool),
        dget s.tables e = some ctab → dget ctab c = none →
        lookup_from_kv_body s (.dict h) c e ic = .error .keyError)
    ∧ (∀ (s : GribDef) (fid c e : String) (ctab : Pydict String Table) (ic : Bool),
        dget s.tables e = some ctab → dget ctab c = none →
        get_def_body s fid c e ic = .error .keyError)
    ∧ (∀ (s : GribDef) (fid c e : String) (ctab : Pydict String Table) (ic : Bool),
        dget s.tables e = some ctab → dget ctab c = some ([] : Table) →
        get_def_body s fid c e ic = .error .keyError) := by
  refine ⟨?_, ?_, ?_, ?_⟩
  · intro s c e ctab h ic hctab htab
    simp only [lookup_from_kv_body, hctab, htab, lookup_from_kv_tab, buildFields]
    cases ic <;> simp [stripComments]
  · intro s c e ctab h ic hctab htab
    simp only [lookup_from_kv_body, hctab, htab]
  · intro s fid c e ctab ic hctab htab
    simp only [get_def_body, hctab, htab]
  · intro s fid c e ctab ic hctab htab
    simp only [get_def_body, hctab, htab, dget]

/-- Witness for C5's amended statement at concrete stores: a
registered empty table gives `ok \x7b\x7d`, an unregistered concept
gives `KeyError` for both lookups, a direct lookup on the empty table
gives `KeyError`. -/
theorem lookup_missing_vs_empty_witness :
    lookup_from_kv_body (GribDef.mk [("grib1", [("c", [])]), ("grib2", [("c", [])])] true)
        (.dict [("key", GribVal.int 3)]) "c" "grib2" false = .ok []
    ∧ lookup_from_kv_body (GribDef.mk [("grib1", []), ("grib2", [])] true)
        (.dict []) "c" "grib2" true = .error .keyError
    ∧ get_def_body (GribDef.mk [("grib1", []), ("grib2", [])] true)
        "foo" "c" "grib2" false = .error .keyError
    ∧ get_def_body (GribDef.mk [("grib1", [("c", [])]), ("grib2", [("c", [])])] true)
        "foo" "c" "grib2" false = .error .keyError :=
  ⟨lookup_missing_vs_empty.1 _ "c" "grib2" [("c", [])] [("key", GribVal.int 3)] false
     (by decide) (by decide),
   lookup_missing_vs_empty.2.1 _ "c" "grib2" [] [] true (by decide) (by decide),
   lookup_missing_vs_empty.2.2.1 _ "foo" "c" "grib2" [] false (by decide) (by decide),
   lookup_missing_vs_empty.2.2.2 _ "foo" "c" "grib2" [("c", [])] false
     (by decide) (by decide)⟩

/-- C1 counterexample: per the claim, after registering a second file
defining the already-present field `foo`, `foo`'s record should keep
the union of the attribute keys (`a` from the new file, `b` kept from
the old).  The code merges with `dict.update` on the concept table,
replacing `foo`'s whole record, so `b` is gone: the first read stores
`foo ↦ \x7ba: 1, b: 2\x7d`, the second read leaves `foo ↦ \x7ba: 3\x7d`
with no key `b` at all. -/
theorem read_second_file_drops_old_attributes :
    (GribDef.mk [("grib1", [("c", [])]), ("grib2", [("c", [])])] true).read
        "grib2/c.def" "\"foo\" = \x7b a = 1 ; b = 2 ; \x7d" none
      = .ok (GribDef.mk [("grib1", [("c", [])]),
          ("grib2", [("c", [("foo", [(some "a", GribVal.int 1), (some "b", GribVal.int 2)])])])] true)
    ∧ (GribDef.mk [("grib1", [("c", [])]),
          ("grib2", [("c", [("foo", [(some "a", GribVal.int 1), (some "b", GribVal.int 2)])])])] true).read
        "grib2/c.def" "\"foo\" = \x7b a = 3 ; \x7d" none
      = .ok (GribDef.mk [("grib1", [("c", [])]),
          ("grib2", [("c", [("foo", [(some "a", GribVal.int 3)])])])] true)
    ∧ dget [(some "a", GribVal.int 3)] (some "b") = (none : Option GribVal)
    ∧ dget [(some "a", GribVal.int 1), (some "b", GribVal.int 2)] (some "b")
        = some (GribVal.int 2) := by
  exact ⟨rfl, rfl, rfl, rfl⟩

/-- C1 as amended: registering a second file whose fragment defines an
already-present field name replaces that field's record *wholesale*
with the new file's record (the merge is `dict.update` of the concept
table, i.e. shallow per-table, not per-field); fields absent from the
new fragment are retained untouched and never deleted. -/
theorem read_merge_is_table_level :
    ∀ (s s2 : GribDef) (fname contents : String) (ge : Option String) (ed : String)
      (ctab : Pydict String Table) (tab0 frag : Table),
      inferEdition fname ge = some ed →
      dget s.tables ed = some ctab →
      dget ctab (conceptOf fname) = some tab0 →
      read_gribdef contents = .ok frag →
      (frag.map Prod.fst).Nodup →
      s.read fname contents ge = .ok s2 →
      dget s2.tables ed = some (dinsert ctab (conceptOf fname) (dupdate tab0 frag))
      ∧ ∀ field, dget (dupdate tab0 frag) field = oalt (dget frag field) (dget tab0 field) := by
  intro s s2 fname contents ge ed ctab tab0 frag hinf hctab htab hfrag hnd hrun
  simp only [GribDef.read, hinf, hctab, htab, hfrag] at hrun
  have hs2 : s2 = GribDef.mk
      (dinsert s.tables ed (dinsert ctab (conceptOf fname) (dupdate tab0 frag)))
      s.initialized := (Except.ok.inj hrun).symm
  subst hs2
  constructor
  · rw [dget_dinsert, if_pos rfl]
  · intro field
    exact dupdate_dget hnd tab0 field

/-- Witness for C1's amended statement: the two-file scenario of the
counterexample, re-checked through the general theorem (`a` is taken
from the new fragment, `b` survives because the new fragment does not
define it -- inside the *same* record only because here the record is
the fragment's one). -/
theorem read_merge_is_table_level_witness :
    dget ((GribDef.mk [("grib1", [("c", [])]),
        ("grib2", [("c", [("foo", [(some "a", GribVal.int 1), (some "b", GribVal.int 2)])])])] true).read
        "grib2/c.def" "\"foo\" = \x7b a = 3 ; \x7d" none |>.toOption.getD (GribDef.mk [] false) |>.tables) "grib2"
      = some (dinsert [("c", [("foo", [(some "a", GribVal.int 1), (some "b", GribVal.int 2)])])]
          "c" (dupdate [("foo", [(some "a", GribVal.int 1), (some "b", GribVal.int 2)])]
            [("foo", [(some "a", GribVal.int 3)])]))
    ∧ dget (dupdate [("foo", [(some "a", GribVal.int 1), (some "b", GribVal.int 2)])]
          [("foo", [(some "a", GribVal.int 3)])]) "foo"
        = oalt (dget [("foo", [(some "a", GribVal.int 3)])] "foo")
            (dget [("foo", [(some "a", GribVal.int 1), (some "b", GribVal.int 2)])] "foo") := by
  have h := read_merge_is_table_level
    (GribDef.mk [("grib1", [("c", [])]),
      ("grib2", [("c", [("foo", [(some "a", GribVal.int 1), (some "b", GribVal.int 2)])])])] true)
    (GribDef.mk [("grib1", [("c", [])]),
      ("grib2", [("c", [("foo", [(some "a", GribVal.int 3)])])])] true)
    "grib2/c.def" "\"foo\" = \x7b a = 3 ; \x7d" none "grib2"
    [("c", [("foo", [(some "a", GribVal.int 1), (some "b", GribVal.int 2)])])]
    [("foo", [(some "a", GribVal.int 1), (some "b", GribVal.int 2)])]
    [("foo", [(some "a", GribVal.int 3)])]
    (by decide) (by decide) (by decide) (by rfl) (by decide) (by rfl)
  exact ⟨h.1, h.2 "foo"⟩

/-- C6: `_lookup` first tries `parse_GRIBstr_todict` on a string fid;
exactly a syntax failure of that parse dispatches to the direct
`_get_def` lookup with the original string, a successful parse to the
reverse `_lookup_from_kv` lookup, and a mapping fid goes to the
reverse lookup directly.  (The modelled parse can only fail with a
syntax error, see the third conjunct.) -/
theorem lookup_dispatch :
    (∀ (s : GribDef) (t c e : String) (ic : Bool) (d : Pydict String GribVal),
        parse_GRIBstr_todict t = .ok d →
        lookup_body s (.str t) c e ic
          = (lookup_from_kv_body s (.dict d) c e ic).map .many)
    ∧ (∀ (s : GribDef) (t c e : String) (ic : Bool),
        parse_GRIBstr_todict t = .error .syntaxError →
        lookup_body s (.str t) c e ic = (get_def_body s t c e ic).map .one)
    ∧ (∀ t : String, (∃ d, parse_GRIBstr_todict t = .ok d)
        ∨ parse_GRIBstr_todict t = .error .syntaxError)
    ∧ (∀ (s : GribDef) (d : Pydict String GribVal) (c e : String) (ic : Bool),
        lookup_body s (.dict d) c e ic
          = (lookup_from_kv_body s (.dict d) c e ic).map .many) := by
  refine ⟨?_, ?_, ?_, ?_⟩
  · intro s t c e ic d hp
    simp only [lookup_body, hp]
    cases lookup_from_kv_body s (.dict d) c e ic <;> simp [Except.map]
  · intro s t c e ic hp
    simp only [lookup_body, hp]
    cases get_def_body s t c e ic <;> simp [Except.map]
  · intro t
    unfold parse_GRIBstr_todict str2dict
    by_cases hall : ((splitOnChar ',' t.data).all fun item => item.contains '=') = true
    · rw [if_pos hall]
      exact Or.inl ⟨_, rfl⟩
    · rw [if_neg hall]
      exact Or.inr rfl
  · intro s d c e ic
    simp only [lookup_body]
    cases lookup_from_kv_body s (.dict d) c e ic <;> simp [Except.map]

/-- Witness for C6 at concrete inputs: `"key=3"` parses and goes to
the reverse lookup, `"shortName"` fails the parse and goes to the
direct lookup. -/
theorem lookup_dispatch_witness :
    lookup_body (GribDef.mk [("grib1", [("c", [])]), ("grib2", [("c", [])])] true)
        (.str "key=3") "c" "grib2" true
      = (lookup_from_kv_body (GribDef.mk [("grib1", [("c", [])]), ("grib2", [("c", [])])] true)
          (.dict [("key", GribVal.int 3)]) "c" "grib2" true).map .many
    ∧ lookup_body (GribDef.mk [("grib1", [("c", [])]), ("grib2", [("c", [])])] true)
        (.str "shortName") "c" "grib2" true
      = (get_def_body (GribDef.mk [("grib1", [("c", [])]), ("grib2", [("c", [])])] true)
          "shortName" "c" "grib2" true).map .one :=
  ⟨lookup_dispatch.1 _ "key=3" "c" "grib2" true [("key", GribVal.int 3)] (by rfl),
   lookup_dispatch.2.1 _ "shortName" "c" "grib2" true (by rfl)⟩

/-- C7 (with the spec-modelled `_actual_init` that records completion
in the `initialized` flag): on an uninitialized store, a decorated
lookup runs the bulk initialization first and answers on the
initialized state, whose flag is then set, so no later lookup re-runs
it (second conjunct: a lookup on an initialized store is just its
body); the state after any lookup is initialized, and an eagerly
constructed store starts initialized. -/
theorem lazy_init_memoized :
    (∀ (bulk : BulkLoad) (s : GribDef) (fid : Fid) (c e : String) (ic : Bool),
        s.initialized = false →
        GribDef.lookupD bulk s fid c e ic
          = (actualInit bulk s, lookup_body (actualInit bulk s) fid c e ic)
        ∧ (actualInit bulk s).initialized = true)
    ∧ (∀ (bulk : BulkLoad) (s : GribDef) (fid : Fid) (c e : String) (ic : Bool),
        s.initialized = true →
        GribDef.lookupD bulk s fid c e ic = (s, lookup_body s fid c e ic))
    ∧ (∀ (bulk : BulkLoad) (s : GribDef) (fid : Fid) (c e : String) (ic : Bool),
        ((GribDef.lookupD bulk s fid c e ic).1).initialized = true)
    ∧ (∀ (bulk : BulkLoad) (concepts : List String),
        (GribDef.construct bulk true concepts).initialized = true) := by
  refine ⟨?_, ?_, ?_, ?_⟩
  · intro bulk s fid c e ic h
    exact ⟨by simp [GribDef.lookupD, init_before, h], rfl⟩
  · intro bulk s fid c e ic h
    simp [GribDef.lookupD, init_before, h]
  · intro bulk s fid c e ic
    by_cases h : s.initialized = true
    · simp [GribDef.lookupD, init_before, h]
    · simp only [Bool.not_eq_true] at h
      simp [GribDef.lookupD, init_before, h, actualInit]
  · intro bulk concepts
    rfl

/-- Witness for C7 at a concrete lazily-constructed store and a
concrete eager store. -/
theorem lazy_init_memoized_witness :
    GribDef.lookupD (fun t => t) (GribDef.construct (fun t => t) false ["c"])
        (.dict []) "c" "grib2" true
      = (actualInit (fun t => t) (GribDef.construct (fun t => t) false ["c"]),
         lookup_body (actualInit (fun t => t) (GribDef.construct (fun t => t) false ["c"]))
           (.dict []) "c" "grib2" true)
    ∧ (GribDef.construct (fun t => t) true ["c"]).initialized = true :=
  ⟨(lazy_init_memoized.1 (fun t => t) (GribDef.construct (fun t => t) false ["c"])
      (.dict []) "c" "grib2" true (by rfl)).1,
   lazy_init_memoized.2.2.2 (fun t => t) ["c"]⟩

/-- C8: on an initialized store no lookup operation (polymorphic,
direct or reverse) changes the store state -- in particular no stored
`ConceptTable` is modified; and a direct lookup of a present field
returns the stored record as a detached value (`copy.copy` in the
source), so the store's table is independent of anything later done to
the returned record. -/
theorem lookups_leave_tables_unchanged :
    (∀ (bulk : BulkLoad) (s : GribDef) (fid : Fid) (c e : String) (ic : Bool),
        s.initialized = true → (GribDef.lookupD bulk s fid c e ic).1 = s)
    ∧ (∀ (bulk : BulkLoad) (s : GribDef) (fid c e : String) (ic : Bool),
        s.initialized = true → (GribDef.getDefD bulk s fid c e ic).1 = s)
    ∧ (∀ (bulk : BulkLoad) (s : GribDef) (h : Fid) (c e : String) (ic : Bool),
        s.initialized = true → (GribDef.lookupFromKvD bulk s h c e ic).1 = s)
    ∧ (∀ (bulk : BulkLoad) (s : GribDef) (fid c e : String)
        (ctab : Pydict String Table) (tab : Table) (rec : Record),
        s.initialized = true →
        dget s.tables e = some ctab → dget ctab c = some tab → dget tab fid = some rec →
        (GribDef.getDefD bulk s fid c e true).2 = .ok rec
        ∧ (GribDef.getDefD bulk s fid c e true).1 = s) := by
  refine ⟨?_, ?_, ?_, ?_⟩
  · intro bulk s fid c e ic h
    simp [GribDef.lookupD, init_before, h]
  · intro bulk s fid c e ic h
    simp [GribDef.getDefD, init_before, h]
  · intro bulk s hh c e ic h
    simp [GribDef.lookupFromKvD, init_before, h]
  · intro bulk s fid c e ctab tab rec h hctab htab hrec
    constructor
    · simp [GribDef.getDefD, init_before, h, get_def_body, hctab, htab, hrec]
    · simp [GribDef.getDefD, init_before, h]

/-- Witness for C8 at a concrete initialized store with a stored
field. -/
theorem lookups_leave_tables_unchanged_witness :
    (GribDef.lookupD (fun t => t)
        (GribDef.mk [("grib1", [("c", [])]),
          ("grib2", [("c", [("foo", [(some "key", GribVal.int 3)])])])] true)
        (.str "key=3") "c" "grib2" true).1
      = GribDef.mk [("grib1", [("c", [])]),
          ("grib2", [("c", [("foo", [(some "key", GribVal.int 3)])])])] true
    ∧ (GribDef.getDefD (fun t => t)
        (GribDef.mk [("grib1", [("c", [])]),
          ("grib2", [("c", [("foo", [(some "key", GribVal.int 3)])])])] true)
        "foo" "c" "grib2" true).2
      = .ok [(some "key", GribVal.int 3)] :=
  ⟨lookups_leave_tables_unchanged.1 (fun t => t) _ (.str "key=3") "c" "grib2" true rfl,
   (lookups_leave_tables_unchanged.2.2.2 (fun t => t)
      (GribDef.mk [("grib1", [("c", [])]),
        ("grib2", [("c", [("foo", [(some "key", GribVal.int 3)])])])] true)
      "foo" "c" "grib2"
      [("c", [("foo", [(some "key", GribVal.int 3)])])]
      [("foo", [(some "key", GribVal.int 3)])]
      [(some "key", GribVal.int 3)]
      rfl (by decide) (by decide) (by decide)).1⟩

/-- Membership in the keys of a filtered table. -/
theorem mem_keys_filter {tab : Table} {p : String × Record → Bool} {f : String} :
    f ∈ (tab.filter p).map Prod.fst ↔ ∃ rec, (f, rec) ∈ tab ∧ p (f, rec) = true := by
  simp only [List.mem_map, List.mem_filter]
  constructor
  · rintro ⟨⟨g, rec⟩, ⟨hmem, hp⟩, rfl⟩
    exact ⟨rec, hmem, hp⟩
  · rintro ⟨rec, hmem, hp⟩
    exact ⟨(f, rec), ⟨hmem, hp⟩, rfl⟩

/-- A successful reverse lookup returns records for exactly the keys
of the internal `fields` accumulation. -/
theorem lookup_from_kv_tab_keys {tab : Table} {h : Pydict String GribVal}
    {ic : Bool} {res : Table}
    (hrun : lookup_from_kv_tab tab h ic = .ok res) :
    res.map Prod.fst = (buildFields tab h).map Prod.fst := by
  unfold lookup_from_kv_tab at hrun
  cases ic with
  | true =>
    simp only [if_pos] at hrun
    rw [← Except.ok.inj hrun]
  | false =>
    simp only [Bool.false_eq_true, if_false] at hrun
    rw [stripComments_ok_eq hrun]
    simp

/-- C3: whenever a reverse lookup returns (on a duplicate-free table,
as Python dicts always are), the returned field names are exactly
those whose stored record has, for every probe pair, the probed key
present with an exactly `==`-equal value; and with the empty probe
every field of the table is returned. -/
theorem reverse_lookup_exact_match :
    (∀ (tab : Table) (h : Pydict String GribVal) (ic : Bool) (res : Table),
        (tab.map Prod.fst).Nodup →
        lookup_from_kv_tab tab h ic = .ok res →
        ∀ f, f ∈ res.map Prod.fst ↔
          ∃ rec, (f, rec) ∈ tab ∧
            ∀ p ∈ h, ∃ w, dget rec (some p.1) = some w ∧ pyEq w p.2 = true)
    ∧ (∀ (tab : Table) (ic : Bool) (res : Table),
        (tab.map Prod.fst).Nodup →
        lookup_from_kv_tab tab [] ic = .ok res →
        res.map Prod.fst = tab.map Prod.fst) := by
  have hempty : ∀ rec : Record, matchesHandgrip [] rec = true := by
    intro rec
    rfl
  constructor
  · intro tab h ic res hnd hrun f
    rw [lookup_from_kv_tab_keys hrun, buildFields_eq_filter h hnd, mem_keys_filter]
    simp only [matchesHandgrip_iff]
  · intro tab ic res hnd hrun
    rw [lookup_from_kv_tab_keys hrun, buildFields_eq_filter [] hnd]
    congr 1
    apply List.filter_eq_self.2
    intro fr _
    exact hempty fr.2

/-- Witness for C3 on the spec's example table: probe `key=3` matches
exactly `foo`, not `bar`. -/
theorem reverse_lookup_exact_match_witness :
    ("foo" ∈ ([("foo", [(some "key", GribVal.int 3), (some "x", GribVal.int 1)])] : Table).map Prod.fst ↔
      ∃ rec, ("foo", rec) ∈ ([("foo", [(some "key", GribVal.int 3), (some "x", GribVal.int 1)]),
          ("bar", [(some "key", GribVal.int 4)])] : Table) ∧
        ∀ p ∈ ([("key", GribVal.int 3)] : Pydict String GribVal),
          ∃ w, dget rec (some p.1) = some w ∧ pyEq w p.2 = true)
    ∧ ("bar" ∈ ([("foo", [(some "key", GribVal.int 3), (some "x", GribVal.int 1)])] : Table).map Prod.fst ↔
      ∃ rec, ("bar", rec) ∈ ([("foo", [(some "key", GribVal.int 3), (some "x", GribVal.int 1)]),
          ("bar", [(some "key", GribVal.int 4)])] : Table) ∧
        ∀ p ∈ ([("key", GribVal.int 3)] : Pydict String GribVal),
          ∃ w, dget rec (some p.1) = some w ∧ pyEq w p.2 = true) :=
  ⟨reverse_lookup_exact_match.1
      [("foo", [(some "key", GribVal.int 3), (some "x", GribVal.int 1)]),
        ("bar", [(some "key", GribVal.int 4)])]
      [("key", GribVal.int 3)] true
      [("foo", [(some "key", GribVal.int 3), (some "x", GribVal.int 1)])]
      (by decide) (by rfl) "foo",
   reverse_lookup_exact_match.1
      [("foo", [(some "key", GribVal.int 3), (some "x", GribVal.int 1)]),
        ("bar", [(some "key", GribVal.int 4)])]
      [("key", GribVal.int 3)] true
      [("foo", [(some "key", GribVal.int 3), (some "x", GribVal.int 1)])]
      (by decide) (by rfl) "bar"⟩

/-- C4 counterexample: the claim says every lookup with
`include_comments` false "returns normally whether or not the matched
record carries a `#comment`".  The reverse lookup's stripping loop
pops `#comment` unguardedly, so a matched record without a comment
raises `KeyError` (first conjunct); the direct lookup on the very same
record strips conditionally and succeeds (second conjunct). -/
theorem reverse_lookup_strip_raises_without_comment :
    lookup_from_kv_tab [("foo", [(some "key", GribVal.int 3)])] [] false = .error .keyError
    ∧ get_def_body (GribDef.mk [("grib1", []),
          ("grib2", [("c", [("foo", [(some "key", GribVal.int 3)])])])] true)
        "foo" "c" "grib2" false = .ok [(some "key", GribVal.int 3)] := by
  exact ⟨rfl, rfl⟩

/-- C4 as amended: the direct lookup strips `#comment` only when
present and returns normally in both cases; the reverse lookup keeps
comments when `include_comments` is true, and with it false it returns
normally if and only if *every* matched record carries `#comment`
(which it then strips from each returned copy), raising `KeyError`
otherwise. -/
theorem lookup_comment_stripping :
    (∀ (s : GribDef) (fid c e : String) (ctab : Pydict String Table)
        (tab : Table) (rec : Record),
        dget s.tables e = some ctab → dget ctab c = some tab → dget tab fid = some rec →
        get_def_body s fid c e true = .ok rec
        ∧ get_def_body s fid c e false
            = .ok (if dcontains rec (some "#comment") then dpop rec (some "#comment") else rec))
    ∧ (∀ (tab : Table) (h : Pydict String GribVal),
        lookup_from_kv_tab tab h true = .ok (buildFields tab h))
    ∧ (∀ (tab : Table) (h : Pydict String GribVal),
        (∃ res, lookup_from_kv_tab tab h false = .ok res) ↔
          ∀ fr ∈ buildFields tab h, dcontains fr.2 (some "#comment") = true)
    ∧ (∀ (tab : Table) (h : Pydict String GribVal) (res : Table),
        lookup_from_kv_tab tab h false = .ok res →
        res = (buildFields tab h).map fun fr => (fr.1, dpop fr.2 (some "#comment"))) := by
  refine ⟨?_, ?_, ?_, ?_⟩
  · intro s fid c e ctab tab rec hctab htab hrec
    constructor <;> simp [get_def_body, hctab, htab, hrec]
  · intro tab h
    simp [lookup_from_kv_tab]
  · intro tab h
    rw [show lookup_from_kv_tab tab h false = stripComments (buildFields tab h) from by
      simp [lookup_from_kv_tab]]
    exact stripComments_isOk_iff _
  · intro tab h res hrun
    apply stripComments_ok_eq
    simpa [lookup_from_kv_tab] using hrun

/-- Witness for C4's amended statement: a record with a comment is
stripped by the direct lookup, and the reverse-lookup success
condition holds on a comment-free matched record exactly when the
right side fails too. -/
theorem lookup_comment_stripping_witness :
    (get_def_body (GribDef.mk [("grib1", []),
        ("grib2", [("c", [("foo", [(some "#comment", GribVal.str "hi"),
          (some "key", GribVal.int 3)])])])] true)
      "foo" "c" "grib2" false
      = .ok (if dcontains [(some "#comment", GribVal.str "hi"), (some "key", GribVal.int 3)]
              (some "#comment")
            then dpop [(some "#comment", GribVal.str "hi"), (some "key", GribVal.int 3)]
              (some "#comment")
            else [(some "#comment", GribVal.str "hi"), (some "key", GribVal.int 3)]))
    ∧ ((∃ res, lookup_from_kv_tab [("foo", [(some "key", GribVal.int 3)])] [] false = .ok res) ↔
        ∀ fr ∈ buildFields [("foo", [(some "key", GribVal.int 3)])]
          ([] : Pydict String GribVal),
          dcontains fr.2 (some "#comment") = true) :=
  ⟨(lookup_comment_stripping.1
      (GribDef.mk [("grib1", []),
        ("grib2", [("c", [("foo", [(some "#comment", GribVal.str "hi"),
          (some "key", GribVal.int 3)])])])] true)
      "foo" "c" "grib2"
      [("c", [("foo", [(some "#comment", GribVal.str "hi"), (some "key", GribVal.int 3)])])]
      [("foo", [(some "#comment", GribVal.str "hi"), (some "key", GribVal.int 3)])]
      [(some "#comment", GribVal.str "hi"), (some "key", GribVal.int 3)]
      (by decide) (by decide) (by decide)).2,
   lookup_comment_stripping.2.2.1 [("foo", [(some "key", GribVal.int 3)])] []⟩

/-- One successful step of `foldSpans`. -/
theorem foldSpans_cons_ok {lines : List (List Char)} {i n : Nat}
    {rest : List (Nat × Nat)} {r rr : Record}
    (h : spanApply lines i n r = .ok rr) :
    foldSpans lines r ((i, n) :: rest) = foldSpans lines rr rest := by
  simp only [foldSpans, h]

/-- C9: when the same field name occurs at two headers of one parsed
file (and nowhere else), parsing does not fail on account of the
duplicate: the resulting fragment holds a single record for that name,
equal to the second occurrence's span applied on top of the first
occurrence's record -- so on every key, the second span's attributes
win where both spans define it, its new keys are added, and the first
span's other attributes are retained (the `oalt` equation). -/
theorem duplicate_field_spans_merge :
    ∀ (text : String) (lines : List (List Char)) (idxs pre mid post : List (String × Nat))
      (f : String) (i1 i2 n1 n2 : Nat) (d : Table) (r1 r20 r2 : Record),
      lines = normalize text.data →
      idxs = collectIdxs lines →
      idxs = pre ++ ((f, i1) :: (mid ++ ((f, i2) :: post))) →
      f ∉ pre.map Prod.fst → f ∉ mid.map Prod.fst → f ∉ post.map Prod.fst →
      n1 = nexti (mid ++ (f, i2) :: post) lines.length →
      n2 = nexti post lines.length →
      read_gribdef text = .ok d →
      spanApply lines i1 n1 [] = .ok r1 →
      spanApply lines i2 n2 [] = .ok r20 →
      spanApply lines i2 n2 r1 = .ok r2 →
      dget d f = some r2 ∧ ∀ k, dget r2 k = oalt (dget r20 k) (dget r1 k) := by
  intro text lines idxs pre mid post f i1 i2 n1 n2 d r1 r20 r2
  intro hlines hidxs hsplit hpre hmid hpost hn1 hn2 hread hsp1 hsp20 hsp2
  have hps : processSpans lines (buildDico idxs) idxs = .ok d := by
    rw [hidxs, hlines]
    exact hread
  have hf : f ∈ idxs.map Prod.fst := by
    rw [hsplit]
    simp
  have hdico : dget (buildDico idxs) f = some ([] : Record) := by
    rw [buildDico_dget, if_pos hf]
  have hstep1 : spansOf f ((f, i1) :: (mid ++ (f, i2) :: post)) lines.length
      = (i1, nexti (mid ++ (f, i2) :: post) lines.length)
        :: spansOf f (mid ++ (f, i2) :: post) lines.length := by
    simp [spansOf]
  have hstep2 : spansOf f ((f, i2) :: post) lines.length
      = (i2, nexti post lines.length) :: spansOf f post lines.length := by
    simp [spansOf]
  have hp0 : spansOf f post lines.length = [] := by
    simpa using spansOf_append_of_not_mem hpost ([] : List (String × Nat)) lines.length
  have hspans : spansOf f idxs lines.length = [(i1, n1), (i2, n2)] := by
    rw [hsplit, spansOf_append_of_not_mem hpre, hstep1,
        spansOf_append_of_not_mem hmid, hstep2, hp0, hn1, hn2]
  obtain ⟨r, hfold, hdget⟩ := processSpans_tracks lines idxs (buildDico idxs) d f hps
  rw [hspans] at hfold hdget
  rw [hdico] at hfold
  simp only [Option.getD_some] at hfold
  have hcalc : foldSpans lines [] [(i1, n1), (i2, n2)] = .ok r2 := by
    rw [foldSpans_cons_ok hsp1, foldSpans_cons_ok hsp2]
    rfl
  rw [hfold] at hcalc
  have hr : r = r2 := Except.ok.inj hcalc
  rw [if_neg (by simp)] at hdget
  obtain ⟨r0, hr0, hfac⟩ := spanApply_factor hsp2
  have hr20 : r0 = r20 := by
    rw [hsp20] at hr0
    exact (Except.ok.inj hr0).symm
  subst hr20
  exact ⟨by rw [hdget, hr], hfac⟩

/-- Witness for C9: the file text
`"foo" = \x7b a = 1 ; b = 2 ; \x7d` newline
`"foo" = \x7b a = 3 ; c = 4 ; \x7d` parses to a single `foo` record
`\x7ba: 3, b: 2, c: 4\x7d`; on key `b` the first span's value
survives. -/
theorem duplicate_field_spans_merge_witness :
    dget [("foo", [(some "a", GribVal.int 3), (some "b", GribVal.int 2),
        (some "c", GribVal.int 4)])] "foo"
      = some [(some "a", GribVal.int 3), (some "b", GribVal.int 2), (some "c", GribVal.int 4)]
    ∧ dget [(some "a", GribVal.int 3), (some "b", GribVal.int 2),
        (some "c", GribVal.int 4)] (some "b")
      = oalt (dget [(some "a", GribVal.int 3), (some "c", GribVal.int 4)] (some "b"))
          (dget [(some "a", GribVal.int 1), (some "b", GribVal.int 2)] (some "b")) := by
  have h := duplicate_field_spans_merge
    "\"foo\" = \x7b a = 1 ; b = 2 ; \x7d\n\"foo\" = \x7b a = 3 ; c = 4 ; \x7d"
    (normalize ("\"foo\" = \x7b a = 1 ; b = 2 ; \x7d\n\"foo\" = \x7b a = 3 ; c = 4 ; \x7d").data)
    [("foo", 0), ("foo", 4)] [] [] [] "foo" 0 4 4 8
    [("foo", [(some "a", GribVal.int 3), (some "b", GribVal.int 2), (some "c", GribVal.int 4)])]
    [(some "a", GribVal.int 1), (some "b", GribVal.int 2)]
    [(some "a", GribVal.int 3), (some "c", GribVal.int 4)]
    [(some "a", GribVal.int 3), (some "b", GribVal.int 2), (some "c", GribVal.int 4)]
    rfl (by rfl) (by rfl) (by simp) (by simp) (by simp) (by rfl) (by rfl)
    (by rfl) (by rfl) (by rfl) (by rfl)
  exact ⟨h.1, h.2 (some "b")⟩

end Griberies
